import Mathlib

/-!
Verification of the RGB↔RYB color conversion library (`src/color.rs`).

Modelling choices:

* Rust `f64` values are modelled by the type `F`: an exact rational
  (`ℚ`) extended with NaN and the two signed infinities.  Arithmetic on
  finite values is exact (no rounding); the special-value propagation
  (NaN, ±∞, division by zero) follows IEEE 754 as implemented by Rust's
  `f64` operators, with one simplification: the model has no negative
  zero, a rational zero behaves as IEEE `+0.0`.
* `f64::min` / `f64::max` follow Rust's semantics: if exactly one
  argument is NaN the other argument is returned.
* Rust's float-to-unsigned-integer `as` cast saturates: NaN maps to 0,
  values below 0 map to 0, values whose truncation toward zero exceeds
  the target maximum map to the maximum.
-/

/-- Model of a Rust `f64` value: NaN, an infinity (`inf true` is `+∞`,
`inf false` is `-∞`), or a finite value modelled as an exact rational. -/
inductive F where
  | nan : F
  | inf : Bool → F
  | fin : ℚ → F
deriving DecidableEq, Repr

namespace F

/-- IEEE addition on the model. -/
def add : F → F → F
  | nan, _ => nan
  | _, nan => nan
  | inf s, inf t => if s = t then inf s else nan
  | inf s, fin _ => inf s
  | fin _, inf t => inf t
  | fin a, fin b => fin (a + b)

/-- IEEE negation on the model. -/
def neg : F → F
  | nan => nan
  | inf s => inf (!s)
  | fin a => fin (-a)

/-- IEEE subtraction on the model (`a - b = a + (-b)`). -/
def sub (a b : F) : F := add a (neg b)

/-- IEEE multiplication on the model (no negative zero: `±∞ * 0 = NaN`,
otherwise signs multiply). -/
def mul : F → F → F
  | nan, _ => nan
  | _, nan => nan
  | inf s, inf t => inf (s == t)
  | inf s, fin a => if a = 0 then nan else inf (s == decide (0 < a))
  | fin a, inf t => if a = 0 then nan else inf (t == decide (0 < a))
  | fin a, fin b => fin (a * b)

/-- IEEE division on the model.  `0/0 = NaN`, a nonzero finite value
divided by zero gives an infinity carrying the sign of the dividend
(the divisor zero counts as `+0.0`: the model has no negative zero). -/
def div : F → F → F
  | nan, _ => nan
  | _, nan => nan
  | inf _, inf _ => nan
  | inf s, fin b => if b = 0 then inf s else inf (s == decide (0 < b))
  | fin _, inf _ => fin 0
  | fin a, fin b => if b = 0 then (if a = 0 then nan else inf (decide (0 < a))) else fin (a / b)

/-- Rust `f64::min`: if exactly one argument is NaN, the other argument
is returned.  (The `if` form is used instead of `Min.min` so that the
kernel can evaluate it on literals.) -/
def min : F → F → F
  | nan, y => y
  | x, nan => x
  | inf s, inf t => inf (s && t)
  | inf s, fin b => if s then fin b else inf false
  | fin a, inf t => if t then fin a else inf false
  | fin a, fin b => fin (if a ≤ b then a else b)

/-- Rust `f64::max`: if exactly one argument is NaN, the other argument
is returned. -/
def max : F → F → F
  | nan, y => y
  | x, nan => x
  | inf s, inf t => inf (s || t)
  | inf s, fin b => if s then inf true else fin b
  | fin a, inf t => if t then inf true else fin a
  | fin a, fin b => fin (if a ≤ b then b else a)

instance : Add F := ⟨F.add⟩
instance : Neg F := ⟨F.neg⟩
instance : Sub F := ⟨F.sub⟩
instance : Mul F := ⟨F.mul⟩
instance : Div F := ⟨F.div⟩

/-- `is_nan` of the model. -/
def isNaN : F → Bool
  | nan => true
  | _ => false

/-- `is_finite` of the model. -/
def isFinite : F → Bool
  | fin _ => true
  | _ => false

/-- Two model values are within tolerance `tol` of each other: both are
finite and their difference is at most `tol` in absolute value.  A NaN
or infinite value is within tolerance of nothing. -/
def within (tol : ℚ) : F → F → Bool
  | fin a, fin b => decide (-tol ≤ a - b) && decide (a - b ≤ tol)
  | _, _ => false

@[simp] theorem fin_add (a b : ℚ) : fin a + fin b = fin (a + b) := rfl

@[simp] theorem fin_sub (a b : ℚ) : fin a - fin b = fin (a - b) := by
  show sub (fin a) (fin b) = fin (a - b)
  simp [sub, neg, add, sub_eq_add_neg]

@[simp] theorem fin_mul (a b : ℚ) : fin a * fin b = fin (a * b) := rfl

@[simp] theorem fin_min (a b : ℚ) : min (fin a) (fin b) = fin (Min.min a b) := by
  show fin (if a ≤ b then a else b) = fin (Min.min a b)
  rw [min_def]

@[simp] theorem fin_max (a b : ℚ) : max (fin a) (fin b) = fin (Max.max a b) := by
  show fin (if a ≤ b then b else a) = fin (Max.max a b)
  rw [max_def]

theorem fin_div (a : ℚ) {b : ℚ} (hb : b ≠ 0) : fin a / fin b = fin (a / b) := by
  show div (fin a) (fin b) = fin (a / b)
  simp [div, hb]

@[simp] theorem fin_div_two (a : ℚ) : fin a / fin 2 = fin (a / 2) :=
  fin_div a two_ne_zero

theorem fin_div_fin_zero (a : ℚ) :
    fin a / fin 0 = if a = 0 then nan else inf (decide (0 < a)) := by
  show div (fin a) (fin 0) = _
  simp [div]

@[simp] theorem fin_div_nan (a : ℚ) : fin a / nan = nan := rfl

@[simp] theorem nan_add (x : F) : nan + x = nan := by
  show add nan x = nan
  cases x <;> rfl

@[simp] theorem add_nan (x : F) : x + nan = nan := by
  show add x nan = nan
  cases x <;> rfl

end F

/-!
## The component abstraction (`trait Component`, src/color.rs lines 17-52)

A `Component` bridges a native channel-storage type and the `f64`
domain, exactly as the Rust trait demands `to_f64` and `from_f64`.
-/

/-- `trait Component` of src/color.rs: conversion of a channel-storage
value to and from `f64` (modelled by `F`). -/
structure Component (α : Type) where
  to_f64 : α → F
  from_f64 : F → α

/-- Rust's `expr as $unsigned_type` cast from `f64` to an unsigned
integer type with maximum value `M`: rounds toward zero and saturates
(NaN maps to 0, anything below 0 maps to 0, anything above `M` maps to
`M`). -/
def f64AsUnsigned (M : ℕ) : F → ℕ
  | F.nan => 0
  | F.inf s => if s then M else 0
  | F.fin q => Int.toNat (if (M : ℤ) ≤ q.floor then (M : ℤ) else q.floor)

/-- `impl Component for f32` (src/color.rs lines 26-33): `to_f64` is
`self as f64` and `from_f64` is `x as f32`.  The model keeps exact
rationals, so both casts are the identity (32-bit rounding is not
modelled). -/
def f32Component : Component F where
  to_f64 := fun x => x
  from_f64 := fun x => x

/-- Modelled from the spec: `impl Component for f64` is not among the
sources (only src/color.rs is available; the crate root that would hold
it is missing), but §4.1 and §6 of the spec include the 64-bit float in
the built-in set, with `to_normalized` and `from_normalized` returning
the value unchanged. -/
def f64Component : Component F where
  to_f64 := fun x => x
  from_f64 := fun x => x

/-- `derive_scaling_component!` (src/color.rs lines 35-52) for an
unsigned integer type with maximum value `M`: `to_f64` is
`(self as f64) / (MAX as f64)` and `from_f64` is
`(x * (MAX as f64)) as $type`. -/
def scalingComponent (M : ℕ) : Component ℕ where
  to_f64 := fun v => F.fin ((v : ℚ) / (M : ℚ))
  from_f64 := fun x => f64AsUnsigned M (x * F.fin (M : ℚ))

/-- `derive_scaling_component!(u8)` (src/color.rs line 49). -/
def u8Component : Component ℕ := scalingComponent (2 ^ 8 - 1)

/-- `derive_scaling_component!(u16)` (src/color.rs line 50). -/
def u16Component : Component ℕ := scalingComponent (2 ^ 16 - 1)

/-- `derive_scaling_component!(u32)` (src/color.rs line 51). -/
def u32Component : Component ℕ := scalingComponent (2 ^ 32 - 1)

/-- `derive_scaling_component!(u64)` (src/color.rs line 52). -/
def u64Component : Component ℕ := scalingComponent (2 ^ 64 - 1)

/-- `derive_scaling_component!(usize)` (src/color.rs line 48), with the
pointer width taken to be 64 bits. -/
def usizeComponent : Component ℕ := scalingComponent (2 ^ 64 - 1)

/-!
## The named RYB constants (src/color.rs lines 8-15)

Each is an `Ryb<f64>`, i.e. a triple of `F` values in the model.
-/

def BLACK : F × F × F := (F.fin 1, F.fin 1, F.fin 1)
def BLUE : F × F × F := (F.fin 0, F.fin 0, F.fin 1)
def CYAN : F × F × F := (F.fin 0, F.fin (1/2), F.fin 1)
def GREEN : F × F × F := (F.fin 0, F.fin 1, F.fin 1)
def PURPLE : F × F × F := (F.fin 1, F.fin 0, F.fin (1/2))
def RED : F × F × F := (F.fin 1, F.fin 0, F.fin 0)
def WHITE : F × F × F := (F.fin 0, F.fin 0, F.fin 0)
def YELLOW : F × F × F := (F.fin 0, F.fin 1, F.fin 0)

/-!
## The forward transform `Ryb::new_rgb` (src/color.rs lines 73-105)

The `f64`-level pipeline is `new_rgb_core`; the named intermediate
values (`i_w`, the normalization divisor, `n`, `i_b`) are split out so
theorems can speak about them, each translated from the corresponding
`let` of the source.
-/

/-- `i_w` of `Ryb::new_rgb` (line 78): `min(min(r0_rgb, g0_rgb), b0_rgb)`. -/
def new_rgb_iw (r0 g0 b0 : F) : F := F.min (F.min r0 g0) b0

/-- The denominator of `n` in `Ryb::new_rgb` (line 88):
`max(max(r_rgb, g_rgb), b_rgb)` of the de-whitened channels. -/
def new_rgb_divisor (r0 g0 b0 : F) : F :=
  let iW := new_rgb_iw r0 g0 b0
  F.max (F.max (r0 - iW) (g0 - iW)) (b0 - iW)

/-- `n` of `Ryb::new_rgb` (line 88). -/
def new_rgb_n (r0 g0 b0 : F) : F :=
  let iW := new_rgb_iw r0 g0 b0
  let rRgb := r0 - iW
  let gRgb := g0 - iW
  let bRgb := b0 - iW
  let rRyb := rRgb - F.min rRgb gRgb
  let yRyb := (gRgb + F.min rRgb gRgb) / F.fin 2
  let bRyb := (bRgb + gRgb - F.min rRgb gRgb) / F.fin 2
  F.max (F.max rRyb yRyb) bRyb / new_rgb_divisor r0 g0 b0

/-- `i_b` of `Ryb::new_rgb` (line 94):
`min(min(1.0 - r0_rgb, 1.0 - g0_rgb), 1.0 - b0_rgb)`, on the
*normalized* inputs in all three positions. -/
def new_rgb_ib (r0 g0 b0 : F) : F :=
  F.min (F.min (F.fin 1 - r0) (F.fin 1 - g0)) (F.fin 1 - b0)

/-- The `f64`-level body of `Ryb::new_rgb` (lines 78-98): white removal,
subtractive decomposition, rescaling by `n`, black re-addition. -/
def new_rgb_core (r0 g0 b0 : F) : F × F × F :=
  let iW := new_rgb_iw r0 g0 b0
  let rRgb := r0 - iW
  let gRgb := g0 - iW
  let bRgb := b0 - iW
  let rRyb := rRgb - F.min rRgb gRgb
  let yRyb := (gRgb + F.min rRgb gRgb) / F.fin 2
  let bRyb := (bRgb + gRgb - F.min rRgb gRgb) / F.fin 2
  let n := new_rgb_n r0 g0 b0
  let iB := new_rgb_ib r0 g0 b0
  (rRyb / n + iB, yRyb / n + iB, bRyb / n + iB)

/-- `Ryb::new_rgb` (src/color.rs lines 73-105): convert the components
to `f64`, run the pipeline, convert each result back to storage. -/
def new_rgb {α : Type} (c : Component α) : α × α × α → α × α × α :=
  fun v =>
    let p := new_rgb_core (c.to_f64 v.1) (c.to_f64 v.2.1) (c.to_f64 v.2.2)
    (c.from_f64 p.1, c.from_f64 p.2.1, c.from_f64 p.2.2)

/-!
## The inverse transform `Ryb::rgb` (src/color.rs lines 108-142)
-/

/-- `i_w` of `Ryb::rgb` (line 115). -/
def rgb_iw (r0 y0 b0 : F) : F := F.min (F.min r0 y0) b0

/-- The denominator of `n` in `Ryb::rgb` (line 125):
`max(max(r_rgb, g_rgb), b_rgb)` of the additively recomposed channels. -/
def rgb_divisor (r0 y0 b0 : F) : F :=
  let iW := rgb_iw r0 y0 b0
  let rRyb := r0 - iW
  let yRyb := y0 - iW
  let bRyb := b0 - iW
  let rRgb := rRyb + yRyb - F.min yRyb bRyb
  let gRgb := yRyb + F.fin 2 * F.min yRyb bRyb
  let bRgb := F.fin 2 * (bRyb - F.min yRyb bRyb)
  F.max (F.max rRgb gRgb) bRgb

/-- `n` of `Ryb::rgb` (line 125). -/
def rgb_n (r0 y0 b0 : F) : F :=
  let iW := rgb_iw r0 y0 b0
  F.max (F.max (r0 - iW) (y0 - iW)) (b0 - iW) / rgb_divisor r0 y0 b0

/-- `i_b` of `Ryb::rgb` (line 131):
`min(min(1.0 - r0_ryb, 1.0 - y0_ryb), 1.0 - b_ryb)` — the third
position uses the *de-whitened* blue `b_ryb = b0_ryb - i_w`, not the
normalized input `b0_ryb`. -/
def rgb_ib (r0 y0 b0 : F) : F :=
  let iW := rgb_iw r0 y0 b0
  F.min (F.min (F.fin 1 - r0) (F.fin 1 - y0)) (F.fin 1 - (b0 - iW))

/-- The `f64`-level body of `Ryb::rgb` (lines 111-135). -/
def rgb_core (r0 y0 b0 : F) : F × F × F :=
  let iW := rgb_iw r0 y0 b0
  let rRyb := r0 - iW
  let yRyb := y0 - iW
  let bRyb := b0 - iW
  let rRgb := rRyb + yRyb - F.min yRyb bRyb
  let gRgb := yRyb + F.fin 2 * F.min yRyb bRyb
  let bRgb := F.fin 2 * (bRyb - F.min yRyb bRyb)
  let n := rgb_n r0 y0 b0
  let iB := rgb_ib r0 y0 b0
  (rRgb / n + iB, gRgb / n + iB, bRgb / n + iB)

/-- `Ryb::rgb` (src/color.rs lines 108-142). -/
def rgb {α : Type} (c : Component α) : α × α × α → α × α × α :=
  fun v =>
    let p := rgb_core (c.to_f64 v.1) (c.to_f64 v.2.1) (c.to_f64 v.2.2)
    (c.from_f64 p.1, c.from_f64 p.2.1, c.from_f64 p.2.2)

/-- `new_rgb_core` on a triple, for round-trip statements. -/
def new_rgb_core3 (v : F × F × F) : F × F × F := new_rgb_core v.1 v.2.1 v.2.2

/-- `rgb_core` on a triple, for round-trip statements. -/
def rgb_core3 (v : F × F × F) : F × F × F := rgb_core v.1 v.2.1 v.2.2

/-- Writing the spec's forward pipeline (§4.2) step by step: normalize,
white interference, subtractive decomposition, normalization factor,
black interference, conversion back to storage.  Used to compare the
source-derived `new_rgb` against the spec's wording. -/
def new_rgb_spec {α : Type} (c : Component α) (v : α × α × α) : α × α × α :=
  let r0 := c.to_f64 v.1
  let g0 := c.to_f64 v.2.1
  let b0 := c.to_f64 v.2.2
  let iw := F.min (F.min r0 g0) b0
  let r := r0 - iw
  let g := g0 - iw
  let b := b0 - iw
  let r_ryb := r - F.min r g
  let y_ryb := (g + F.min r g) / F.fin 2
  let b_ryb := (b + g - F.min r g) / F.fin 2
  let n := F.max (F.max r_ryb y_ryb) b_ryb / F.max (F.max r g) b
  let ib := F.min (F.min (F.fin 1 - r0) (F.fin 1 - g0)) (F.fin 1 - b0)
  (c.from_f64 (r_ryb / n + ib), c.from_f64 (y_ryb / n + ib), c.from_f64 (b_ryb / n + ib))

/-!
## Helper lemmas
-/

theorem fin_div_one (a : ℚ) : F.fin a / F.fin 1 = F.fin a := by
  rw [F.fin_div a one_ne_zero, div_one]

theorem new_rgb_f64_eq (v : F × F × F) : new_rgb f64Component v = new_rgb_core3 v := rfl

theorem rgb_f64_eq (v : F × F × F) : rgb f64Component v = rgb_core3 v := rfl

/-- On the region `g ≤ b ≤ r`, `g < r`, the forward transform maps
`(r, g, b)` to `(1-g, 1-r, (b-g)/2 + (1-r))`; both normalizations are
by 1 there. -/
theorem new_rgb_region1 (r g b : ℚ) (hgb : g ≤ b) (hbr : b ≤ r) (hgr : g < r) :
    new_rgb_core (F.fin r) (F.fin g) (F.fin b) =
      (F.fin (1 - g), F.fin (1 - r), F.fin ((b - g) / 2 + (1 - r))) := by
  have hrg : (0:ℚ) < r - g := by linarith
  have hm1 : Min.min r g = g := min_eq_right hgr.le
  have hm2 : Min.min g b = g := min_eq_left hgb
  have hm3 : Min.min (r - g) (0:ℚ) = 0 := min_eq_right hrg.le
  have hM1 : Max.max (r - g) (0:ℚ) = r - g := max_eq_left hrg.le
  have hM2 : Max.max (r - g) ((b - g) / 2) = r - g := max_eq_left (by linarith)
  have hM3 : Max.max (r - g) (b - g) = r - g := max_eq_left (by linarith)
  have hn : F.fin (r - g) / F.fin (r - g) = F.fin 1 := by
    rw [F.fin_div _ hrg.ne', div_self hrg.ne']
  have hI1 : Min.min (1 - r) (1 - g) = 1 - r := min_eq_left (by linarith)
  have hI2 : Min.min (1 - r) (1 - b) = 1 - r := min_eq_left (by linarith)
  simp only [new_rgb_core, new_rgb_iw, new_rgb_n, new_rgb_divisor, new_rgb_ib,
    F.fin_min, F.fin_max, F.fin_sub, F.fin_add, F.fin_div_two,
    hm1, hm2, sub_self, hm3, sub_zero, add_zero, zero_add, zero_div,
    hM1, hM2, hM3, hn, fin_div_one, hI1, hI2, Prod.mk.injEq]
  exact ⟨congrArg F.fin (by ring), trivial⟩

/-- On the image of the region of `new_rgb_region1`, the inverse
transform recovers the original triple exactly. -/
theorem rgb_region1 (r g b : ℚ) (hgb : g ≤ b) (hbr : b ≤ r) (hgr : g < r) (hr1 : r < 1) :
    rgb_core (F.fin (1 - g)) (F.fin (1 - r)) (F.fin ((b - g) / 2 + (1 - r))) =
      (F.fin r, F.fin g, F.fin b) := by
  have hrg : (0:ℚ) < r - g := by linarith
  have hm1 : Min.min (1 - g) (1 - r) = 1 - r := min_eq_right (by linarith)
  have hm2 : Min.min (1 - r) ((b - g) / 2 + (1 - r)) = 1 - r := min_eq_left (by linarith)
  have hm3 : Min.min (0:ℚ) ((b - g) / 2) = 0 := min_eq_left (by linarith)
  have hM1 : Max.max (r - g) (0:ℚ) = r - g := max_eq_left hrg.le
  have hM2 : Max.max (r - g) ((b - g) / 2) = r - g := max_eq_left (by linarith)
  have hM3 : Max.max (r - g) (b - g) = r - g := max_eq_left (by linarith)
  have hn : F.fin (r - g) / F.fin (r - g) = F.fin 1 := by
    rw [F.fin_div _ hrg.ne', div_self hrg.ne']
  have h2 : (2:ℚ) * ((b - g) / 2) = b - g := by ring
  have hc : 1 - g - (1 - r) = r - g := by ring
  have hI1 : Min.min g r = g := min_eq_left hgr.le
  have hI2 : Min.min g (1 - (b - g) / 2) = g := min_eq_left (by linarith)
  simp only [rgb_core, rgb_iw, rgb_n, rgb_divisor, rgb_ib,
    F.fin_min, F.fin_max, F.fin_sub, F.fin_add, F.fin_mul, F.fin_div_two,
    hm1, hm2, sub_sub_cancel, add_sub_cancel_right, hc, sub_self, hm3, sub_zero, add_zero,
    zero_add, mul_zero, h2, hM1, hM2, hM3, hn, fin_div_one, hI1, hI2, Prod.mk.injEq]
  exact ⟨congrArg F.fin (by ring), trivial, congrArg F.fin (by ring)⟩

/-- On the family `(c, y, c)` with `c < y`, the inverse transform maps
to `(1-c, 1-c, 1-y)`. -/
theorem rgb_region2 (c y : ℚ) (hy0 : 0 ≤ y) (hcy : c < y) :
    rgb_core (F.fin c) (F.fin y) (F.fin c) =
      (F.fin (1 - c), F.fin (1 - c), F.fin (1 - y)) := by
  have hyc : (0:ℚ) < y - c := by linarith
  have hm1 : Min.min c y = c := min_eq_left hcy.le
  have hm2 : Min.min (y - c) (0:ℚ) = 0 := min_eq_right hyc.le
  have hMa : Max.max (0:ℚ) (y - c) = y - c := max_eq_right hyc.le
  have hMb : Max.max (y - c) (0:ℚ) = y - c := max_eq_left hyc.le
  have hMc : Max.max (y - c) (y - c) = y - c := max_self _
  have hn : F.fin (y - c) / F.fin (y - c) = F.fin 1 := by
    rw [F.fin_div _ hyc.ne', div_self hyc.ne']
  have hI1 : Min.min (1 - c) (1 - y) = 1 - y := min_eq_right (by linarith)
  have hI2 : Min.min (1 - y) (1:ℚ) = 1 - y := min_eq_left (by linarith)
  simp only [rgb_core, rgb_iw, rgb_n, rgb_divisor, rgb_ib,
    F.fin_min, F.fin_max, F.fin_sub, F.fin_add, F.fin_mul, F.fin_div_two,
    hm1, min_self, sub_self, hm2, sub_zero, add_zero, zero_add, mul_zero,
    hMa, hMb, hMc, hn, fin_div_one, hI1, hI2, Prod.mk.injEq]
  exact ⟨congrArg F.fin (by ring), congrArg F.fin (by ring), trivial⟩

/-- On the image of the family of `rgb_region2`, the forward transform
recovers the original triple exactly. -/
theorem new_rgb_region2 (c y : ℚ) (hcy : c < y) :
    new_rgb_core (F.fin (1 - c)) (F.fin (1 - c)) (F.fin (1 - y)) =
      (F.fin c, F.fin y, F.fin c) := by
  have hyc : (0:ℚ) < y - c := by linarith
  have hm1 : Min.min (1 - c) (1 - y) = 1 - y := min_eq_right (by linarith)
  have hc : 1 - c - (1 - y) = y - c := by ring
  have hy2 : (y - c + (y - c)) / 2 = y - c := by ring
  have hMa : Max.max (0:ℚ) (y - c) = y - c := max_eq_right hyc.le
  have hMb : Max.max (y - c) (0:ℚ) = y - c := max_eq_left hyc.le
  have hMc : Max.max (y - c) (y - c) = y - c := max_self _
  have hn : F.fin (y - c) / F.fin (y - c) = F.fin 1 := by
    rw [F.fin_div _ hyc.ne', div_self hyc.ne']
  have hI1 : Min.min c y = c := min_eq_left hcy.le
  simp only [new_rgb_core, new_rgb_iw, new_rgb_n, new_rgb_divisor, new_rgb_ib,
    F.fin_min, F.fin_max, F.fin_sub, F.fin_add, F.fin_div_two,
    min_self, hm1, hc, sub_self, hy2, sub_sub_cancel, zero_div, zero_add, add_zero, sub_zero,
    hMa, hMb, hMc, hn, fin_div_one, hI1, Prod.mk.injEq]
  exact ⟨trivial, congrArg F.fin (by ring), trivial⟩

/-!
## Claims
-/

/-- C1 counterexample: the round-trip law fails as stated.  The RGB
triple `(1/4, 1/2, 3/4)` is strictly inside `(0,1)` and does not hit
the degenerate zero divisor, yet converting it to RYB and back gives a
first component (`1/2`) that is not within `1e-6` of the input `1/4`. -/
theorem C1_round_trip_counterexample :
    F.within (1/1000000)
      (rgb f64Component (new_rgb f64Component (F.fin (1/4), F.fin (1/2), F.fin (3/4)))).1
      (F.fin (1/4)) = false := by
  norm_num [new_rgb, rgb, f64Component, new_rgb_core, new_rgb_iw, new_rgb_n, new_rgb_divisor,
    new_rgb_ib, rgb_core, rgb_iw, rgb_n, rgb_divisor, rgb_ib, F.within,
    F.min, F.max, F.div, F.add, F.sub, F.neg, HDiv.hDiv, Div.div, HAdd.hAdd, Add.add,
    HSub.hSub, Sub.sub]

/-- C1 (amended): the round-trip law does not hold for every interior
non-degenerate triple, but both compositions are exact (not merely
within `1e-6`) on restricted domains: RGB triples with
`g ≤ b ≤ r`, `g < r`, `r < 1`, `0 < g` round-trip through
`new_rgb` then `rgb`, and RYB triples `(c, y, c)` with `0 < c < y < 1`
round-trip through `rgb` then `new_rgb`. -/
theorem C1_round_trip_amended :
    (∀ r g b : ℚ, 0 < g → g ≤ b → b ≤ r → g < r → r < 1 →
      rgb f64Component (new_rgb f64Component (F.fin r, F.fin g, F.fin b)) =
        (F.fin r, F.fin g, F.fin b)) ∧
    (∀ c y : ℚ, 0 < c → c < y → y < 1 →
      new_rgb f64Component (rgb f64Component (F.fin c, F.fin y, F.fin c)) =
        (F.fin c, F.fin y, F.fin c)) := by
  constructor
  · intro r g b _ hgb hbr hgr hr1
    rw [new_rgb_f64_eq, rgb_f64_eq]
    show rgb_core3 (new_rgb_core (F.fin r) (F.fin g) (F.fin b)) = _
    rw [new_rgb_region1 r g b hgb hbr hgr]
    exact rgb_region1 r g b hgb hbr hgr hr1
  · intro c y hc0 hcy hy1
    rw [new_rgb_f64_eq, rgb_f64_eq]
    show new_rgb_core3 (rgb_core (F.fin c) (F.fin y) (F.fin c)) = _
    rw [rgb_region2 c y (by linarith) hcy]
    exact new_rgb_region2 c y hcy

/-- C1 witness: the amended round-trip law at the concrete inputs
`(3/4, 1/4, 1/2)` (RGB, first composition) and `(1/4, 1/2, 1/4)`
(RYB, second composition). -/
theorem C1_round_trip_amended_witness :
    rgb f64Component (new_rgb f64Component (F.fin (3/4), F.fin (1/4), F.fin (1/2))) =
        (F.fin (3/4), F.fin (1/4), F.fin (1/2)) ∧
    new_rgb f64Component (rgb f64Component (F.fin (1/4), F.fin (1/2), F.fin (1/4))) =
        (F.fin (1/4), F.fin (1/2), F.fin (1/4)) :=
  ⟨C1_round_trip_amended.1 (3/4) (1/4) (1/2) (by norm_num) (by norm_num) (by norm_num)
      (by norm_num) (by norm_num),
    C1_round_trip_amended.2 (1/4) (1/2) (by norm_num) (by norm_num) (by norm_num)⟩

/-- C2: the forward conversion `new_rgb` computes, for every component
type and every input triple, exactly the spec §4.2 pipeline
(`new_rgb_spec`): normalize, subtract white interference, subtractive
decomposition, rescale by `n`, add black interference, convert back. -/
theorem C2_forward_matches_spec_pipeline :
    ∀ (α : Type) (c : Component α) (v : α × α × α), new_rgb c v = new_rgb_spec c v :=
  fun _ _ _ => rfl

/-- C3: on RGB pure black `(0, 0, 0)` the forward conversion is total
(it returns a value), the normalization divisor after white removal is
zero, and the result has NaN in every output channel (`f64` storage
passes the channels through unchanged). -/
theorem C3_black_input_nan :
    new_rgb_divisor (F.fin 0) (F.fin 0) (F.fin 0) = F.fin 0 ∧
    new_rgb f64Component (F.fin 0, F.fin 0, F.fin 0) = (F.nan, F.nan, F.nan) ∧
    F.isNaN F.nan = true := by
  norm_num [new_rgb, f64Component, new_rgb_core, new_rgb_iw, new_rgb_n, new_rgb_divisor,
    new_rgb_ib, F.isNaN, F.min, F.max, F.div, F.add, F.sub, F.neg,
    HDiv.hDiv, Div.div, HAdd.hAdd, Add.add, HSub.hSub, Sub.sub]

/-- C4 counterexample: on RGB white `(1, 1, 1)` the first output
channel of the forward conversion is within `1e-6` of no value at all —
in particular not of `1` (white's channel value) nor of `0` (the RYB
white constant's channel value) — because it is NaN. -/
theorem C4_white_counterexample :
    F.within (1/1000000) (new_rgb f64Component (F.fin 1, F.fin 1, F.fin 1)).1 (F.fin 1) = false ∧
    F.within (1/1000000) (new_rgb f64Component (F.fin 1, F.fin 1, F.fin 1)).1 (F.fin 0) = false := by
  norm_num [new_rgb, f64Component, new_rgb_core, new_rgb_iw, new_rgb_n, new_rgb_divisor,
    new_rgb_ib, F.within, F.min, F.max, F.div, F.add, F.sub, F.neg,
    HDiv.hDiv, Div.div, HAdd.hAdd, Add.add, HSub.hSub, Sub.sub]

/-- C4 (amended): RGB white is achromatic, so after white removal all
channels are zero, the normalization divisor is zero, and the forward
conversion returns NaN in all three channels instead of a white triple. -/
theorem C4_white_amended :
    new_rgb_divisor (F.fin 1) (F.fin 1) (F.fin 1) = F.fin 0 ∧
    new_rgb f64Component (F.fin 1, F.fin 1, F.fin 1) = (F.nan, F.nan, F.nan) := by
  norm_num [new_rgb, f64Component, new_rgb_core, new_rgb_iw, new_rgb_n, new_rgb_divisor,
    new_rgb_ib, F.min, F.max, F.div, F.add, F.sub, F.neg,
    HDiv.hDiv, Div.div, HAdd.hAdd, Add.add, HSub.hSub, Sub.sub]

/-- C5 counterexample: converting the RYB constant `WHITE = (0, 0, 0)`
to RGB does not yield RGB white: the first output channel is non-finite
(NaN), hence within `1e-6` of no value, in particular not of `1`. -/
theorem C5_white_constant_counterexample :
    F.within (1/1000000) (rgb f64Component WHITE).1 (F.fin 1) = false ∧
    F.isFinite (rgb f64Component WHITE).1 = false := by
  norm_num [rgb, f64Component, WHITE, rgb_core, rgb_iw, rgb_n, rgb_divisor, rgb_ib,
    F.within, F.isFinite, F.min, F.max, F.div, F.add, F.sub, F.neg,
    HDiv.hDiv, Div.div, HAdd.hAdd, Add.add, HSub.hSub, Sub.sub]

/-- C5 (amended): `WHITE` is achromatic, so the inverse transform hits
the degenerate zero divisor (`0/0`) and returns NaN in all three RGB
channels rather than RGB white. -/
theorem C5_white_constant_amended :
    rgb f64Component WHITE = (F.nan, F.nan, F.nan) := by
  norm_num [rgb, f64Component, WHITE, rgb_core, rgb_iw, rgb_n, rgb_divisor, rgb_ib,
    F.min, F.max, F.div, F.add, F.sub, F.neg,
    HDiv.hDiv, Div.div, HAdd.hAdd, Add.add, HSub.hSub, Sub.sub]

/-- C6: in the inverse transform the black interference is
`min(1-r0, 1-y0, 1-b)` with the *de-whitened* blue `b = b0 - iw` in the
third position, for every input; the forward transform uses the
normalized inputs in all three positions; and the two choices actually
differ (at `(1/5, 3/10, 9/10)` the de-whitened form gives `3/10`, the
normalized form `1/10`). -/
theorem C6_inverse_black_interference :
    (∀ r0 y0 b0 : F, rgb_ib r0 y0 b0 =
      F.min (F.min (F.fin 1 - r0) (F.fin 1 - y0)) (F.fin 1 - (b0 - rgb_iw r0 y0 b0))) ∧
    (∀ r0 g0 b0 : F, new_rgb_ib r0 g0 b0 =
      F.min (F.min (F.fin 1 - r0) (F.fin 1 - g0)) (F.fin 1 - b0)) ∧
    rgb_ib (F.fin (1/5)) (F.fin (3/10)) (F.fin (9/10)) ≠
      F.min (F.min (F.fin 1 - F.fin (1/5)) (F.fin 1 - F.fin (3/10))) (F.fin 1 - F.fin (9/10)) := by
  refine ⟨fun _ _ _ => rfl, fun _ _ _ => rfl, ?_⟩
  norm_num [rgb_ib, rgb_iw, F.min, F.sub, F.add, F.neg, HSub.hSub, Sub.sub]

theorem rat_floor_eq (q : ℚ) : q.floor = ⌊q⌋ := by
  rw [Rat.floor_def', Rat.floor_def]

/-- For an unsigned scaling component, the normalize/denormalize round
trip is exact in the model: `(v/M)*M = v`, and truncating the integer
value `v ≤ M` returns `v` itself. -/
theorem scaling_round_trip (M : ℕ) (hM : 0 < M) (v : ℕ) (hv : v ≤ M) :
    (scalingComponent M).from_f64 ((scalingComponent M).to_f64 v) = v := by
  have hM0 : (M:ℚ) ≠ 0 := Nat.cast_ne_zero.2 hM.ne'
  show f64AsUnsigned M (F.fin ((v:ℚ) / (M:ℚ)) * F.fin (M:ℚ)) = v
  rw [F.fin_mul, div_mul_cancel₀ _ hM0]
  show Int.toNat (if (M:ℤ) ≤ ((v:ℚ)).floor then (M:ℤ) else ((v:ℚ)).floor) = v
  rw [rat_floor_eq, Int.floor_natCast]
  rcases eq_or_lt_of_le hv with h | h
  · rw [if_pos (by exact_mod_cast h.ge), Int.toNat_natCast]
    exact h.symm
  · rw [if_neg (by exact_mod_cast not_le.2 h), Int.toNat_natCast]

/-- C7: the component normalization round trip.  For both floating
components (`f64`, `f32`) `from_f64 (to_f64 x)` returns `x` exactly;
for an unsigned scaling component with maximum `M > 0` and any stored
value `v ≤ M`, the round trip lands within one unit of `v`. -/
theorem C7_component_round_trip :
    (∀ x : F, f64Component.from_f64 (f64Component.to_f64 x) = x) ∧
    (∀ x : F, f32Component.from_f64 (f32Component.to_f64 x) = x) ∧
    (∀ M : ℕ, 0 < M → ∀ v : ℕ, v ≤ M →
      |((scalingComponent M).from_f64 ((scalingComponent M).to_f64 v) : ℤ) - (v : ℤ)| ≤ 1) := by
  refine ⟨fun _ => rfl, fun _ => rfl, fun M hM v hv => ?_⟩
  rw [scaling_round_trip M hM v hv]
  simp

/-- C7 witness: the unsigned round trip at `M = 255` (the `u8`
component) and `v = 128`. -/
theorem C7_component_round_trip_witness :
    0 < 255 ∧ 128 ≤ 255 ∧
    |((scalingComponent 255).from_f64 ((scalingComponent 255).to_f64 128) : ℤ) - (128 : ℤ)| ≤ 1 :=
  ⟨by norm_num, by norm_num,
    C7_component_round_trip.2.2 255 (by norm_num) 128 (by norm_num)⟩

/-- C8: the built-in component set.  The 64-bit float component (the
implementation is absent from the given sources and is modelled from
the spec) passes values through unchanged in both directions, the
32-bit float component does as well, and the unsigned components of
widths 8/16/32/64 and the pointer width divide by their type maximum. -/
theorem C8_builtin_components :
    (∀ x : F, f64Component.to_f64 x = x) ∧
    (∀ x : F, f64Component.from_f64 x = x) ∧
    (∀ x : F, f32Component.to_f64 x = x) ∧
    (∀ x : F, f32Component.from_f64 x = x) ∧
    (∀ v : ℕ, u8Component.to_f64 v = F.fin ((v : ℚ) / 255)) ∧
    (∀ v : ℕ, u16Component.to_f64 v = F.fin ((v : ℚ) / 65535)) ∧
    (∀ v : ℕ, u32Component.to_f64 v = F.fin ((v : ℚ) / 4294967295)) ∧
    (∀ v : ℕ, u64Component.to_f64 v = F.fin ((v : ℚ) / 18446744073709551615)) ∧
    (∀ v : ℕ, usizeComponent.to_f64 v = F.fin ((v : ℚ) / 18446744073709551615)) := by
  refine ⟨fun _ => rfl, fun _ => rfl, fun _ => rfl, fun _ => rfl, ?_, ?_, ?_, ?_, ?_⟩ <;>
    intro v <;> norm_num [u8Component, u16Component, u32Component, u64Component,
      usizeComponent, scalingComponent]

/-- Evaluation of the forward core on finite inputs when neither
division degenerates: with the intermediate quantities pinned by the
equations, the three channels are the finite rationals of the pipeline. -/
theorem new_rgb_core_eval (r g b m m2 r1 y1 b1 D N ib : ℚ)
    (hm : m = Min.min (Min.min r g) b)
    (hm2 : m2 = Min.min (r - m) (g - m))
    (hr1 : r1 = r - m - m2)
    (hy1 : y1 = (g - m + m2) / 2)
    (hb1 : b1 = (b - m + (g - m) - m2) / 2)
    (hD : D = Max.max (Max.max (r - m) (g - m)) (b - m))
    (hN : N = Max.max (Max.max r1 y1) b1)
    (hib : ib = Min.min (Min.min (1 - r) (1 - g)) (1 - b))
    (hD0 : D ≠ 0) (hn0 : N / D ≠ 0) :
    new_rgb_core (F.fin r) (F.fin g) (F.fin b) =
      (F.fin (r1 / (N / D) + ib), F.fin (y1 / (N / D) + ib), F.fin (b1 / (N / D) + ib)) ∧
    new_rgb_divisor (F.fin r) (F.fin g) (F.fin b) = F.fin D ∧
    new_rgb_n (F.fin r) (F.fin g) (F.fin b) = F.fin (N / D) := by
  have hdivD : ∀ a : ℚ, F.fin a / F.fin D = F.fin (a / D) := fun a => F.fin_div a hD0
  have hdivn : ∀ a : ℚ, F.fin a / F.fin (N / D) = F.fin (a / (N / D)) :=
    fun a => F.fin_div a hn0
  subst hm2 hr1 hy1 hb1 hD hN hib hm
  refine ⟨?_, ?_, ?_⟩ <;>
    simp only [new_rgb_core, new_rgb_iw, new_rgb_n, new_rgb_divisor, new_rgb_ib,
      F.fin_min, F.fin_max, F.fin_sub, F.fin_add, F.fin_div_two, hdivD, hdivn]

/-- C9 (implicit): the degenerate non-finite case of the forward
conversion is exactly the achromatic inputs.  For normalized components
in `[0,1]`: if the three are all equal, the divisor after white removal
is zero and all three RYB channels are NaN; otherwise the divisor and
the factor `n` are strictly positive finite values and all three RYB
channels are finite. -/
theorem C9_achromatic_dichotomy (r g b : ℚ)
    (h0r : 0 ≤ r) (h1r : r ≤ 1) (h0g : 0 ≤ g) (h1g : g ≤ 1) (h0b : 0 ≤ b) (h1b : b ≤ 1) :
    (r = g ∧ g = b →
      new_rgb_divisor (F.fin r) (F.fin g) (F.fin b) = F.fin 0 ∧
      new_rgb_core (F.fin r) (F.fin g) (F.fin b) = (F.nan, F.nan, F.nan)) ∧
    (¬(r = g ∧ g = b) →
      (∃ d : ℚ, 0 < d ∧ new_rgb_divisor (F.fin r) (F.fin g) (F.fin b) = F.fin d) ∧
      (∃ q : ℚ, 0 < q ∧ new_rgb_n (F.fin r) (F.fin g) (F.fin b) = F.fin q) ∧
      (F.isFinite (new_rgb_core (F.fin r) (F.fin g) (F.fin b)).1 = true ∧
       F.isFinite (new_rgb_core (F.fin r) (F.fin g) (F.fin b)).2.1 = true ∧
       F.isFinite (new_rgb_core (F.fin r) (F.fin g) (F.fin b)).2.2 = true)) := by
  constructor
  · rintro ⟨rfl, rfl⟩
    constructor <;>
      simp [new_rgb_core, new_rgb_iw, new_rgb_n, new_rgb_divisor, new_rgb_ib,
        F.fin_min, F.fin_max, F.fin_sub, F.fin_add, F.fin_div_two, F.fin_div_fin_zero,
        F.fin_div_nan, F.nan_add, min_self, max_self, sub_self, zero_add, add_zero, zero_div]
  · intro hne
    have hm_le_r : Min.min (Min.min r g) b ≤ r := le_trans (min_le_left _ _) (min_le_left _ _)
    have hm_le_g : Min.min (Min.min r g) b ≤ g := le_trans (min_le_left _ _) (min_le_right _ _)
    have hm_le_b : Min.min (Min.min r g) b ≤ b := min_le_right _ _
    have hr' : 0 ≤ r - Min.min (Min.min r g) b := by linarith
    have hg' : 0 ≤ g - Min.min (Min.min r g) b := by linarith
    have hb' : 0 ≤ b - Min.min (Min.min r g) b := by linarith
    have hm2r : Min.min (r - Min.min (Min.min r g) b) (g - Min.min (Min.min r g) b) ≤
        r - Min.min (Min.min r g) b := min_le_left _ _
    have hm2g : Min.min (r - Min.min (Min.min r g) b) (g - Min.min (Min.min r g) b) ≤
        g - Min.min (Min.min r g) b := min_le_right _ _
    have hm2_nonneg : 0 ≤ Min.min (r - Min.min (Min.min r g) b) (g - Min.min (Min.min r g) b) :=
      le_min hr' hg'
    have hDpos : 0 < Max.max (Max.max (r - Min.min (Min.min r g) b)
        (g - Min.min (Min.min r g) b)) (b - Min.min (Min.min r g) b) := by
      by_contra hcon
      push_neg at hcon
      have e1 : r - Min.min (Min.min r g) b ≤ 0 :=
        le_trans (le_trans (le_max_left _ _) (le_max_left _ _)) hcon
      have e2 : g - Min.min (Min.min r g) b ≤ 0 :=
        le_trans (le_trans (le_max_right _ _) (le_max_left _ _)) hcon
      have e3 : b - Min.min (Min.min r g) b ≤ 0 := le_trans (le_max_right _ _) hcon
      exact hne ⟨by linarith, by linarith⟩
    have hNpos : 0 < Max.max (Max.max
        (r - Min.min (Min.min r g) b -
          Min.min (r - Min.min (Min.min r g) b) (g - Min.min (Min.min r g) b))
        ((g - Min.min (Min.min r g) b +
          Min.min (r - Min.min (Min.min r g) b) (g - Min.min (Min.min r g) b)) / 2))
        ((b - Min.min (Min.min r g) b + (g - Min.min (Min.min r g) b) -
          Min.min (r - Min.min (Min.min r g) b) (g - Min.min (Min.min r g) b)) / 2) := by
      by_contra hcon
      push_neg at hcon
      have e1 : r - Min.min (Min.min r g) b -
          Min.min (r - Min.min (Min.min r g) b) (g - Min.min (Min.min r g) b) ≤ 0 :=
        le_trans (le_trans (le_max_left _ _) (le_max_left _ _)) hcon
      have e2 : (g - Min.min (Min.min r g) b +
          Min.min (r - Min.min (Min.min r g) b) (g - Min.min (Min.min r g) b)) / 2 ≤ 0 :=
        le_trans (le_trans (le_max_right _ _) (le_max_left _ _)) hcon
      have e3 : (b - Min.min (Min.min r g) b + (g - Min.min (Min.min r g) b) -
          Min.min (r - Min.min (Min.min r g) b) (g - Min.min (Min.min r g) b)) / 2 ≤ 0 :=
        le_trans (le_max_right _ _) hcon
      have f1 : r - Min.min (Min.min r g) b ≤ 0 := by linarith
      have f2 : g - Min.min (Min.min r g) b ≤ 0 := by linarith
      have f3 : b - Min.min (Min.min r g) b ≤ 0 := by linarith
      have : Max.max (Max.max (r - Min.min (Min.min r g) b)
          (g - Min.min (Min.min r g) b)) (b - Min.min (Min.min r g) b) ≤ 0 :=
        max_le (max_le f1 f2) f3
      linarith
    have hnpos : 0 < (Max.max (Max.max
        (r - Min.min (Min.min r g) b -
          Min.min (r - Min.min (Min.min r g) b) (g - Min.min (Min.min r g) b))
        ((g - Min.min (Min.min r g) b +
          Min.min (r - Min.min (Min.min r g) b) (g - Min.min (Min.min r g) b)) / 2))
        ((b - Min.min (Min.min r g) b + (g - Min.min (Min.min r g) b) -
          Min.min (r - Min.min (Min.min r g) b) (g - Min.min (Min.min r g) b)) / 2)) /
        (Max.max (Max.max (r - Min.min (Min.min r g) b)
          (g - Min.min (Min.min r g) b)) (b - Min.min (Min.min r g) b)) :=
      div_pos hNpos hDpos
    obtain ⟨hcore, hdiv, hn⟩ :=
      new_rgb_core_eval r g b _ _ _ _ _ _ _ _ rfl rfl rfl rfl rfl rfl rfl rfl
        hDpos.ne' hnpos.ne'
    refine ⟨⟨_, hDpos, hdiv⟩, ⟨_, hnpos, hn⟩, ?_⟩
    rw [hcore]
    exact ⟨rfl, rfl, rfl⟩

/-- C9 witness: the dichotomy applied at the achromatic input
`(0, 0, 0)` (both branches stated) and at the chromatic input
`(1, 0, 1/2)` (second branch). -/
theorem C9_achromatic_dichotomy_witness :
    ((0:ℚ) ≤ 0 ∧ (0:ℚ) ≤ 1 ∧ (0:ℚ) ≤ 1/2 ∧ (1/2:ℚ) ≤ 1) ∧
    (((0:ℚ) = 0 ∧ (0:ℚ) = 0 →
      new_rgb_divisor (F.fin 0) (F.fin 0) (F.fin 0) = F.fin 0 ∧
      new_rgb_core (F.fin 0) (F.fin 0) (F.fin 0) = (F.nan, F.nan, F.nan)) ∧
    (¬((0:ℚ) = 0 ∧ (0:ℚ) = 0) →
      (∃ d : ℚ, 0 < d ∧ new_rgb_divisor (F.fin 0) (F.fin 0) (F.fin 0) = F.fin d) ∧
      (∃ q : ℚ, 0 < q ∧ new_rgb_n (F.fin 0) (F.fin 0) (F.fin 0) = F.fin q) ∧
      (F.isFinite (new_rgb_core (F.fin 0) (F.fin 0) (F.fin 0)).1 = true ∧
       F.isFinite (new_rgb_core (F.fin 0) (F.fin 0) (F.fin 0)).2.1 = true ∧
       F.isFinite (new_rgb_core (F.fin 0) (F.fin 0) (F.fin 0)).2.2 = true))) ∧
    ((¬((1:ℚ) = 0 ∧ (0:ℚ) = 1/2) →
      (∃ d : ℚ, 0 < d ∧ new_rgb_divisor (F.fin 1) (F.fin 0) (F.fin (1/2)) = F.fin d) ∧
      (∃ q : ℚ, 0 < q ∧ new_rgb_n (F.fin 1) (F.fin 0) (F.fin (1/2)) = F.fin q) ∧
      (F.isFinite (new_rgb_core (F.fin 1) (F.fin 0) (F.fin (1/2))).1 = true ∧
       F.isFinite (new_rgb_core (F.fin 1) (F.fin 0) (F.fin (1/2))).2.1 = true ∧
       F.isFinite (new_rgb_core (F.fin 1) (F.fin 0) (F.fin (1/2))).2.2 = true))) :=
  ⟨⟨by norm_num, by norm_num, by norm_num, by norm_num⟩,
    C9_achromatic_dichotomy 0 0 0 (by norm_num) (by norm_num) (by norm_num) (by norm_num)
      (by norm_num) (by norm_num),
    (C9_achromatic_dichotomy 1 0 (1/2) (by norm_num) (by norm_num) (by norm_num) (by norm_num)
      (by norm_num) (by norm_num)).2⟩

/-- C10 (implicit): the float-to-unsigned conversion is total and
saturating for every unsigned component with maximum `M > 0`: NaN maps
to 0, `-∞` maps to 0, `+∞` maps to `M`, a finite input whose scaled
value is negative maps to 0, one whose scaled value exceeds `M` maps to
`M`, and every result is at most `M` (no wraparound). -/
theorem C10_saturating_cast (M : ℕ) (hM : 0 < M) :
    (scalingComponent M).from_f64 F.nan = 0 ∧
    (scalingComponent M).from_f64 (F.inf false) = 0 ∧
    (scalingComponent M).from_f64 (F.inf true) = M ∧
    (∀ q : ℚ, q * (M:ℚ) < 0 → (scalingComponent M).from_f64 (F.fin q) = 0) ∧
    (∀ q : ℚ, (M:ℚ) < q * (M:ℚ) → (scalingComponent M).from_f64 (F.fin q) = M) ∧
    (∀ x : F, (scalingComponent M).from_f64 x ≤ M) := by
  have hM0 : (M:ℚ) ≠ 0 := Nat.cast_ne_zero.2 hM.ne'
  have hMpos : (0:ℚ) < (M:ℚ) := by exact_mod_cast hM
  refine ⟨rfl, ?_, ?_, ?_, ?_, ?_⟩
  · show f64AsUnsigned M (F.mul (F.inf false) (F.fin (M:ℚ))) = 0
    simp [F.mul, f64AsUnsigned, hM0, hMpos]
  · show f64AsUnsigned M (F.mul (F.inf true) (F.fin (M:ℚ))) = M
    simp [F.mul, f64AsUnsigned, hM0, hMpos]
  · intro q hq
    show f64AsUnsigned M (F.fin q * F.fin (M:ℚ)) = 0
    rw [F.fin_mul]
    show Int.toNat (if (M:ℤ) ≤ (q * (M:ℚ)).floor then (M:ℤ) else (q * (M:ℚ)).floor) = 0
    have hfl : (q * (M:ℚ)).floor < 0 := by
      rw [rat_floor_eq]
      exact_mod_cast Int.floor_lt.2 (by exact_mod_cast hq)
    rw [if_neg (by omega), Int.toNat_of_nonpos hfl.le]
  · intro q hq
    show f64AsUnsigned M (F.fin q * F.fin (M:ℚ)) = M
    rw [F.fin_mul]
    show Int.toNat (if (M:ℤ) ≤ (q * (M:ℚ)).floor then (M:ℤ) else (q * (M:ℚ)).floor) = M
    have hfl : (M:ℤ) ≤ (q * (M:ℚ)).floor := by
      rw [rat_floor_eq]
      exact Int.le_floor.2 (by exact_mod_cast hq.le)
    rw [if_pos hfl, Int.toNat_natCast]
  · intro x
    cases x with
    | nan => exact Nat.zero_le M
    | inf s =>
      cases s
      · show f64AsUnsigned M (F.mul (F.inf false) (F.fin (M:ℚ))) ≤ M
        simp [F.mul, f64AsUnsigned, hM0, hMpos]
      · show f64AsUnsigned M (F.mul (F.inf true) (F.fin (M:ℚ))) ≤ M
        simp [F.mul, f64AsUnsigned, hM0, hMpos]
    | fin q =>
      show f64AsUnsigned M (F.fin q * F.fin (M:ℚ)) ≤ M
      rw [F.fin_mul]
      show Int.toNat (if (M:ℤ) ≤ (q * (M:ℚ)).floor then (M:ℤ) else (q * (M:ℚ)).floor) ≤ M
      rcases le_or_lt (M:ℤ) ((q * (M:ℚ)).floor) with h | h
      · rw [if_pos h, Int.toNat_natCast]
      · rw [if_neg (not_le.2 h)]
        omega

/-- C10 witness: the saturating-cast properties at `M = 255`. -/
theorem C10_saturating_cast_witness :
    0 < 255 ∧
    ((scalingComponent 255).from_f64 F.nan = 0 ∧
      (scalingComponent 255).from_f64 (F.inf false) = 0 ∧
      (scalingComponent 255).from_f64 (F.inf true) = 255 ∧
      (∀ q : ℚ, q * (255:ℚ) < 0 → (scalingComponent 255).from_f64 (F.fin q) = 0) ∧
      (∀ q : ℚ, (255:ℚ) < q * (255:ℚ) → (scalingComponent 255).from_f64 (F.fin q) = 255) ∧
      (∀ x : F, (scalingComponent 255).from_f64 x ≤ 255)) :=
  ⟨by norm_num, by exact_mod_cast C10_saturating_cast 255 (by norm_num)⟩
